import Mathlib

/-!
Verification of the frame-retention decision engine of ebb (excise boring
bits, src/ebb.c).  Frames are modelled as byte maps: a frame maps a row
number and a byte offset within the row to the stored 8-bit value (rows are
reached in the C code by advancing the row pointer by the line stride, and
all accesses are of the form row[byteOffset], so this functional view is
faithful for in-bounds accesses).  All C int arithmetic on dimensions is
modelled on Int; counters that are non-negative in every reachable state
(frame counts, skip counter, output index) are modelled on Nat.
-/

/-- A decoded RGB24 frame: row number and byte offset to byte value. -/
def Frame := Int → Int → Nat

/-- PIXEL_TOLERANCE from ebb.c: ((255 * 3) / 10). -/
def PIXEL_TOLERANCE : Int := (255 * 3) / 10

/-- SECOND_IN_CS from ebb.c. -/
def SECOND_IN_CS : Nat := 100

/-- pixel_difference from ebb.c: sum of absolute per-channel differences of
two 3-channel pixels.  The C function receives two byte pointers and reads
three consecutive bytes from each; here the pointers are byte maps. -/
def pixel_difference (prev curr : Int → Nat) : Int :=
  let pr : Int := prev 0
  let pg : Int := prev 1
  let pb : Int := prev 2
  let cr : Int := curr 0
  let cg : Int := curr 1
  let cb : Int := curr 2
  |pr - cr| + |pg - cg| + |pb - cb|

/-- neighbourhoods_differ from ebb.c.  The four row arguments are the
current and next rows of the previous and current frames; x is the byte
offset of the left column of the 2x2 block.  Pointer offsets such as
prev_t + x become shifted byte maps. -/
def neighbourhoods_differ (prev_t prev_n curr_t curr_n : Int → Nat) (x : Int) : Bool :=
  let tl := pixel_difference (fun i => prev_t (x + i)) (fun i => curr_t (x + i))
  let tr := pixel_difference (fun i => prev_t (x + 3 + i)) (fun i => curr_t (x + 3 + i))
  let bl := pixel_difference (fun i => prev_n (x + i)) (fun i => curr_n (x + i))
  let br := pixel_difference (fun i => prev_n (x + 3 + i)) (fun i => curr_n (x + 3 + i))
  let different : Nat :=
    (if tl > PIXEL_TOLERANCE then 1 else 0) +
    (if tr > PIXEL_TOLERANCE then 1 else 0) +
    (if bl > PIXEL_TOLERANCE then 1 else 0) +
    (if br > PIXEL_TOLERANCE then 1 else 0)
  if different > 3 then true else false

/-- The value list of a C for loop "for (v = lo; v < hi; v++)". -/
def intRange (lo hi : Int) : List Int :=
  (List.range (hi - lo).toNat).map (fun (i : Nat) => lo + (i : Int))

/-- frames_differ from ebb.c.  The successive shadowing lets mirror the
destructive updates of w and h in the C body.  The row pointers prev_t and
curr_t start at data[0], the frame's FIRST byte row, and advance by one row
stride per loop iteration; the loop counter y (running from border while
y < h, with h now h0 - 2*border - 1) never offsets them, so at counter
value y the pointers designate data rows y - border and y - border + 1.
The inner C loop runs over byte offsets x = 3*border, 3*border+3, ... while
x < w (after w has become 3*(w0 - 2*border - 1)); those offsets are exactly
3*c for the pixel columns c = border, ..., counted by
intRange border (w / 3). -/
def frames_differ (frame_prev frame_curr : Frame) (w h border : Int) : Bool :=
  let w := w - 2 * border
  let h := h - 2 * border
  let w := w - 1
  let h := h - 1
  let w := w * 3
  (intRange border h).any (fun y =>
    ((intRange border (w / 3)).map (fun c => 3 * c)).any (fun x =>
      neighbourhoods_differ (frame_prev (y - border)) (frame_prev (y - border + 1))
        (frame_curr (y - border)) (frame_curr (y - border + 1)) x))

/-- The (row, pixel-column) positions at which frames_differ invokes the
neighbourhood classifier, in scan order: data rows 0..h-3*border-2 (the row
pointers start at the frame's first row, so the top border rows ARE
scanned and the bottom 2*border+1 rows are not), and in each row the pixel
columns border..w-2*border-2. -/
def scanPositions (w h border : Int) : List (Int × Int) :=
  (intRange 0 (h - 3 * border - 1)).flatMap (fun y =>
    (intRange border (w - 2 * border - 1)).map (fun c => (y, c)))

/-- An all-zero (black) frame. -/
def zeroFrame : Frame := fun _ _ => 0

/-- An all-255 (white) frame. -/
def whiteFrame : Frame := fun _ _ => 255

/-- A frame that differs from zeroFrame exactly on the 2x2 pixel block with
rows 5-6 and pixel columns 1-2 (byte offsets 3..8). -/
def lowBlockFrame : Frame := fun y i =>
  if (y = 5 ∨ y = 6) ∧ (3 ≤ i ∧ i ≤ 8) then 255 else 0

/-- Region scan following the sentence of the specification for the Frame
Differencer: rows from border to height - border - 1 and columns from
border to width - border - 1, each position sampling a 2x2 neighbourhood
from the current and the next row (so positions run to height - border - 2
and width - border - 2 to keep the sample inside the stated region). -/
def specRegionDiffer (frame_prev frame_curr : Frame) (w h border : Int) : Bool :=
  ((intRange border (h - border - 1)).flatMap (fun y =>
    (intRange border (w - border - 1)).map (fun c => (y, c)))).any
    (fun yc => neighbourhoods_differ (frame_prev yc.1) (frame_prev (yc.1 + 1))
      (frame_curr yc.1) (frame_curr (yc.1 + 1)) (3 * yc.2))

/-- Observable output of one run of excise_boring_bits: a PNG emission
(with its output index and the frame content written), a logged skip range
"Skip frames f1 to f2", or the final "Frames read --> emitted" summary. -/
inductive Event where
  | emit : Nat → Frame → Event
  | skipReport : Nat → Nat → Event
  | summary : Nat → Nat → Event

/-- True exactly on skip-range events. -/
def Event.isReport : Event → Bool
  | .skipReport _ _ => true
  | _ => false

/-- State of the main loop of excise_boring_bits across iterations:
frame_prev is the retained buffer, frames the count of decoded frames,
out_frames the next output index, skip the count of consecutive unchanged
frames.  keptIdx and droppedIdx record, as ghost observations, the source
indices for which write_frame was true resp. false, and events the emitted
outputs and log lines in order. -/
structure EbbState where
  frame_prev : Frame
  frames : Nat
  out_frames : Nat
  skip : Nat
  events : List Event
  keptIdx : List Nat
  droppedIdx : List Nat

/-- One iteration of the decoded-frame loop of excise_boring_bits
(ebb.c lines 443-492), for a newly decoded frame frame_curr.  The branch
condition, the skip-range log, the counter updates, the buffer swap and the
conditional write mirror the C control flow; w, h, border, slack are the
decode dimensions and options. -/
def ebb_step (w h border : Int) (slack : Nat) (st : EbbState) (frame_curr : Frame) :
    EbbState :=
  if st.frames == 0 || frames_differ st.frame_prev frame_curr w h border then
    let ev := if st.skip > slack then
        st.events ++ [Event.skipReport (st.frames - (st.skip - slack)) st.frames]
      else st.events
    { frame_prev := frame_curr
      frames := st.frames + 1
      out_frames := st.out_frames + 1
      skip := 0
      events := ev ++ [Event.emit st.out_frames frame_curr]
      keptIdx := st.keptIdx ++ [st.frames]
      droppedIdx := st.droppedIdx }
  else
    let skip1 := st.skip + 1
    if skip1 > slack then
      { st with
        frames := st.frames + 1
        skip := skip1
        droppedIdx := st.droppedIdx ++ [st.frames] }
    else
      { st with
        frames := st.frames + 1
        skip := skip1
        out_frames := st.out_frames + 1
        events := st.events ++ [Event.emit st.out_frames st.frame_prev]
        keptIdx := st.keptIdx ++ [st.frames] }

/-- Initial loop state: frames = 0, skip = 0; out0 is whatever dump_splash
left in out_frames, and fp0 the (uninitialised) content of the previous
buffer, never consulted before the first swap. -/
def ebb_init (fp0 : Frame) (out0 : Nat) : EbbState :=
  { frame_prev := fp0, frames := 0, out_frames := out0,
    skip := 0, events := [], keptIdx := [], droppedIdx := [] }

/-- The whole decoded-frame loop over a stream of decoded frames. -/
def ebb_run (w h border : Int) (slack : Nat) (fp0 : Frame) (out0 : Nat)
    (stream : List Frame) : EbbState :=
  stream.foldl (ebb_step w h border slack) (ebb_init fp0 out0)

/-- The duplicate emissions of the retained frame g at consecutive output
indices out, out+1, ... (n of them). -/
def dupEmits (out : Nat) (g : Frame) : Nat → List Event
  | 0 => []
  | n + 1 => Event.emit out g :: dupEmits (out + 1) g n

/-- The consecutive source indices start, start+1, ... (n of them). -/
def idxList (start : Nat) : Nat → List Nat
  | 0 => []
  | n + 1 => start :: idxList (start + 1) n

/-- get_times from ebb.c.  The C function asserts f1 <= f2 and fills six out
parameters; the assert is modelled as an Option guard (none = assertion
failure) and the outputs as two (hours, minutes, seconds) triples.  h and m
start at zero and are overwritten only when the tested quotient of the
FIRST time is positive, exactly as in the C body. -/
def get_times (f1 f2 num den : Nat) : Option ((Nat × Nat × Nat) × (Nat × Nat × Nat)) :=
  if f1 ≤ f2 then
    let s1 := f1 * den / num
    let s2 := f2 * den / num
    let h1 := if 0 < s1 / (60 * 60) then s1 / (60 * 60) else 0
    let h2 := if 0 < s1 / (60 * 60) then s2 / (60 * 60) else 0
    let s1a := s1 - h1 * (60 * 60)
    let s2a := s2 - h2 * (60 * 60)
    let m1 := if 0 < s1a / 60 then s1a / 60 else 0
    let m2 := if 0 < s1a / 60 then s2a / 60 else 0
    some ((h1, m1, s1a - m1 * 60), (h2, m2, s2a - m2 * 60))
  else none

/-- dump_splash from ebb.c: lim = (splash * fps num) / (SECOND_IN_CS * fps
den) hard links are attempted at output indices 0, 1, ...; the loop stops at
the first failing link and returns the count of slots emitted.  The success
or failure of each link attempt (an external filesystem effect) is supplied
as the oracle linkOK. -/
def dump_splash (linkOK : Nat → Bool) (splash num den : Nat) : Nat :=
  ((List.range ((splash * num) / (SECOND_IN_CS * den))).takeWhile linkOK).length

/-- End of stream (ebb.c lines 498-502): after the source is exhausted the
code calls get_times(frames, out_frames, fps) and then logs the
frames-read/frames-emitted summary.  get_times asserts f1 <= f2, so
whenever more frames were read than emitted the program aborts inside that
call: none models the aborted run, in which not even the summary is
printed. -/
def ebb_finish (num den : Nat) (st : EbbState) : Option (List Event) :=
  match get_times st.frames st.out_frames num den with
  | some _ => some (st.events ++ [Event.summary st.frames st.out_frames])
  | none => none

/-- Boolean extensionality helper. -/
theorem bool_of_iff : ∀ a b : Bool, (a = true ↔ b = true) → a = b := by decide

/-- A find?-isSome characterisation (kept self-contained). -/
theorem find?_isSome_iff {α : Type} (p : α → Bool) (l : List α) :
    ((l.find? p).isSome = true) ↔ ∃ x ∈ l, p x = true := by
  induction l with
  | nil => simp [List.find?]
  | cons a t ih =>
    by_cases hpa : p a = true
    · simp [List.find?, hpa]
    · have hpa' : p a = false := Bool.of_not_eq_true hpa
      simp [List.find?, hpa', ih]

/-- Membership in a C loop range is the interval test. -/
theorem intRange_mem (i lo hi : Int) : i ∈ intRange lo hi ↔ lo ≤ i ∧ i < hi := by
  unfold intRange
  simp only [List.mem_map, List.mem_range]
  constructor
  · rintro ⟨k, hk, rfl⟩
    omega
  · rintro ⟨h1, h2⟩
    exact ⟨(i - lo).toNat, by omega, by omega⟩

/-- frames_differ examines exactly the positions of scanPositions, in scan
order, and returns true precisely when the first classified-different
position exists (find? returns the first match of the list): the loop
counter y of the code corresponds to the examined data row y - border. -/
theorem frames_differ_eq_find (p c : Frame) (w h border : Int) :
    frames_differ p c w h border =
      ((scanPositions w h border).find? (fun yc =>
        neighbourhoods_differ (p yc.1) (p (yc.1 + 1)) (c yc.1) (c (yc.1 + 1))
          (3 * yc.2))).isSome := by
  apply bool_of_iff
  have h3 : (w - 2 * border - 1) * 3 / 3 = w - 2 * border - 1 :=
    Int.mul_ediv_cancel _ (by norm_num)
  rw [find?_isSome_iff]
  simp only [frames_differ, scanPositions, List.any_eq_true, List.mem_map,
    List.mem_flatMap, h3, intRange_mem]
  constructor
  · rintro ⟨y, hy, x, ⟨cc, hcc, rfl⟩, hnd⟩
    exact ⟨(y - border, cc), ⟨y - border, by omega, ⟨cc, hcc, rfl⟩⟩, hnd⟩
  · rintro ⟨yc, ⟨r, hr, ⟨cc, hcc, rfl⟩⟩, hnd⟩
    refine ⟨r + border, by omega, 3 * cc, ⟨cc, hcc, rfl⟩, ?_⟩
    rw [show r + border - border = r from by omega]
    exact hnd

/-- C2: the 2x2 neighbourhood is classified different iff all four corner
pixel differences strictly exceed the tolerance (255*3)/10 = 76; with three
or fewer corners over tolerance the block is not classified different. -/
theorem neighbourhood_rule (prev_t prev_n curr_t curr_n : Int → Nat) (x : Int) :
    PIXEL_TOLERANCE = 76 ∧
    (neighbourhoods_differ prev_t prev_n curr_t curr_n x = true ↔
      (PIXEL_TOLERANCE <
          pixel_difference (fun i => prev_t (x + i)) (fun i => curr_t (x + i)) ∧
       PIXEL_TOLERANCE <
          pixel_difference (fun i => prev_t (x + 3 + i)) (fun i => curr_t (x + 3 + i)) ∧
       PIXEL_TOLERANCE <
          pixel_difference (fun i => prev_n (x + i)) (fun i => curr_n (x + i)) ∧
       PIXEL_TOLERANCE <
          pixel_difference (fun i => prev_n (x + 3 + i)) (fun i => curr_n (x + 3 + i)))) := by
  refine ⟨by decide, ?_⟩
  simp only [neighbourhoods_differ, gt_iff_lt]
  split_ifs <;> simp_all

/-- C3 counterexample: an 8x8 frame pair with border 1 whose only change sits
in the 2x2 block at rows 5-6, columns 1-2.  That position lies within the
claimed scan region (rows border..height-border-1), yet frames_differ
returns false: the code's row pointers start at data row 0 and only
height - 3*border - 1 row pairs are examined, so the last examined pair
here is rows (3, 4) and the change at rows 5-6 is never seen. -/
theorem frame_scan_region_cx :
    frames_differ zeroFrame lowBlockFrame 8 8 1 = false ∧
    specRegionDiffer zeroFrame lowBlockFrame 8 8 1 = true := by
  constructor <;> decide

/-- C3 (amended): frames_differ scans data row pairs (r, r+1) for r from 0
to height-3*border-2 and pixel columns border..width-2*border-2 in
row-major order (the row pointers start at the frame's first row while the
loop counter runs from border below height-2*border-1, so the top border
rows are scanned and the bottom 2*border+1 rows are not), and returns true
exactly when find? locates the first classified-different position of that
scan order (returning false when no scanned position differs). -/
theorem frame_scan_region (p c : Frame) (w h border : Int) :
    frames_differ p c w h border =
      ((scanPositions w h border).find? (fun yc =>
        neighbourhoods_differ (p yc.1) (p (yc.1 + 1)) (c yc.1) (c (yc.1 + 1))
          (3 * yc.2))).isSome :=
  frames_differ_eq_find p c w h border

/-- intRange is empty when the loop bound is not beyond the start. -/
theorem intRange_eq_nil (lo hi : Int) (hle : hi ≤ lo) : intRange lo hi = [] := by
  unfold intRange
  have : (hi - lo).toNat = 0 := Int.toNat_of_nonpos (by omega)
  simp [this]

/-- C6: when the border is too large for the frame dimensions the scan
region is degenerate: no position is ever examined (the position list is
empty, so the classifier and the pixel comparator are never invoked) and
frames_differ reports no difference. -/
theorem degenerate_region_no_scan (p c : Frame) (w h border : Int)
    (hdeg : w ≤ 3 * border + 1 ∨ h ≤ 3 * border + 1) :
    scanPositions w h border = [] ∧ frames_differ p c w h border = false := by
  have hscan : scanPositions w h border = [] := by
    rcases hdeg with hw | hh
    · have hc : intRange border (w - 2 * border - 1) = [] :=
        intRange_eq_nil _ _ (by omega)
      simp [scanPositions, hc]
    · have hr : intRange 0 (h - 3 * border - 1) = [] :=
        intRange_eq_nil _ _ (by omega)
      simp [scanPositions, hr]
  refine ⟨hscan, ?_⟩
  rw [frames_differ_eq_find, hscan]
  rfl

/-- Witness for C6 at a concrete degenerate input: a 4x4 frame with border 1
leaves no scannable position. -/
theorem degenerate_region_no_scan_witness :
    ((4 : Int) ≤ 3 * 1 + 1 ∨ (4 : Int) ≤ 3 * 1 + 1) ∧
    (scanPositions 4 4 1 = [] ∧ frames_differ zeroFrame whiteFrame 4 4 1 = false) :=
  ⟨Or.inl (by decide), degenerate_region_no_scan zeroFrame whiteFrame 4 4 1 (Or.inl (by decide))⟩

/-- C9: on the first frame of the stream the branch is taken on frames == 0
alone: for every width, height, border and every content of the retained
slot (the inputs that determine the Frame Differencer verdict) the result
is the same — the frame is swapped into the retained slot, emitted at the
current output index, and the skip counter is zero afterwards. -/
theorem first_frame_unconditional (w h border : Int) (slack : Nat) (st : EbbState)
    (f : Frame) (h0 : st.frames = 0) (hs : st.skip = 0) :
    ebb_step w h border slack st f =
      { frame_prev := f
        frames := 1
        out_frames := st.out_frames + 1
        skip := 0
        events := st.events ++ [Event.emit st.out_frames f]
        keptIdx := st.keptIdx ++ [0]
        droppedIdx := st.droppedIdx } := by
  have hrep : ¬ st.skip > slack := by omega
  simp [ebb_step, h0, hs, hrep]

/-- Witness for C9 at a concrete first frame. -/
theorem first_frame_unconditional_witness :
    (ebb_init zeroFrame 7).frames = 0 ∧ (ebb_init zeroFrame 7).skip = 0 ∧
    ebb_step 5 5 1 2 (ebb_init zeroFrame 7) whiteFrame =
      { frame_prev := whiteFrame
        frames := 1
        out_frames := (ebb_init zeroFrame 7).out_frames + 1
        skip := 0
        events := (ebb_init zeroFrame 7).events ++ [Event.emit (ebb_init zeroFrame 7).out_frames whiteFrame]
        keptIdx := (ebb_init zeroFrame 7).keptIdx ++ [0]
        droppedIdx := (ebb_init zeroFrame 7).droppedIdx } :=
  ⟨rfl, rfl, first_frame_unconditional 5 5 1 2 (ebb_init zeroFrame 7) whiteFrame rfl rfl⟩

/-- Membership in idxList is an interval test. -/
theorem idxList_mem (i : Nat) : ∀ (n start : Nat), i ∈ idxList start n ↔ start ≤ i ∧ i < start + n := by
  intro n
  induction n with
  | zero => intro s; simp [idxList]
  | succ n ih => intro s; simp [idxList, ih]; omega

/-- Processing a block of frames that are all classified unchanged against
the retained frame: the retained slot never changes, the skip counter grows
by the block length, the first (slack - skip) frames are re-emissions of the
retained frame and the remainder are dropped. -/
theorem ebb_run_same_block (w h border : Int) (slack : Nat) :
    ∀ (fs : List Frame) (st : EbbState),
      (∀ f ∈ fs, frames_differ st.frame_prev f w h border = false) →
      st.frames ≠ 0 →
      (fs.foldl (ebb_step w h border slack) st).frame_prev = st.frame_prev ∧
      (fs.foldl (ebb_step w h border slack) st).frames = st.frames + fs.length ∧
      (fs.foldl (ebb_step w h border slack) st).skip = st.skip + fs.length ∧
      (fs.foldl (ebb_step w h border slack) st).out_frames
        = st.out_frames + min (slack - st.skip) fs.length ∧
      (fs.foldl (ebb_step w h border slack) st).events
        = st.events ++ dupEmits st.out_frames st.frame_prev (min (slack - st.skip) fs.length) ∧
      (fs.foldl (ebb_step w h border slack) st).keptIdx
        = st.keptIdx ++ idxList st.frames (min (slack - st.skip) fs.length) ∧
      (fs.foldl (ebb_step w h border slack) st).droppedIdx
        = st.droppedIdx ++ idxList (st.frames + (slack - st.skip))
            (fs.length - (slack - st.skip)) := by
  intro fs
  induction fs with
  | nil =>
    intro st _ _
    simp [dupEmits, idxList]
  | cons f rest ih =>
    intro st hsame hfr
    have hd : frames_differ st.frame_prev f w h border = false :=
      hsame f (List.mem_cons_self f rest)
    have hb : (st.frames == 0) = false := by
      cases hn : st.frames with
      | zero => exact absurd hn hfr
      | succ n => rfl
    simp only [List.foldl_cons]
    rw [show ebb_step w h border slack st f =
        (if st.skip + 1 > slack then
          { st with
            frames := st.frames + 1
            skip := st.skip + 1
            droppedIdx := st.droppedIdx ++ [st.frames] }
        else
          { st with
            frames := st.frames + 1
            skip := st.skip + 1
            out_frames := st.out_frames + 1
            events := st.events ++ [Event.emit st.out_frames st.frame_prev]
            keptIdx := st.keptIdx ++ [st.frames] }) from by
      simp [ebb_step, hb, hd]]
    by_cases hsk : st.skip + 1 > slack
    · rw [if_pos hsk]
      obtain ⟨ih1, ih2, ih3, ih4, ih5, ih6, ih7⟩ :=
        ih { st with
              frames := st.frames + 1
              skip := st.skip + 1
              droppedIdx := st.droppedIdx ++ [st.frames] }
          (fun f2 hf2 => hsame f2 (List.mem_cons_of_mem f hf2)) (by simp)
      simp only at ih1 ih2 ih3 ih4 ih5 ih6 ih7
      have hz : slack - st.skip = 0 := by omega
      have hz1 : slack - (st.skip + 1) = 0 := by omega
      refine ⟨ih1, ?_, ?_, ?_, ?_, ?_, ?_⟩
      · rw [ih2, List.length_cons]; omega
      · rw [ih3, List.length_cons]; omega
      · rw [ih4, hz, hz1]; simp
      · rw [ih5, hz, hz1]; simp [dupEmits]
      · rw [ih6, hz, hz1]; simp [idxList]
      · rw [ih7, hz1, hz]
        simp only [Nat.sub_zero, Nat.add_zero, List.length_cons, List.append_assoc]
        rw [show idxList st.frames (rest.length + 1)
            = st.frames :: idxList (st.frames + 1) rest.length from rfl]
        simp
    · rw [if_neg hsk]
      obtain ⟨ih1, ih2, ih3, ih4, ih5, ih6, ih7⟩ :=
        ih { st with
              frames := st.frames + 1
              skip := st.skip + 1
              out_frames := st.out_frames + 1
              events := st.events ++ [Event.emit st.out_frames st.frame_prev]
              keptIdx := st.keptIdx ++ [st.frames] }
          (fun f2 hf2 => hsame f2 (List.mem_cons_of_mem f hf2)) (by simp)
      simp only at ih1 ih2 ih3 ih4 ih5 ih6 ih7
      have hm : min (slack - st.skip) (rest.length + 1)
          = min (slack - (st.skip + 1)) rest.length + 1 := by omega
      refine ⟨ih1, ?_, ?_, ?_, ?_, ?_, ?_⟩
      · rw [ih2, List.length_cons]; omega
      · rw [ih3, List.length_cons]; omega
      · rw [ih4, List.length_cons, hm]; omega
      · rw [ih5, List.length_cons, hm]
        rw [show dupEmits st.out_frames st.frame_prev (min (slack - (st.skip + 1)) rest.length + 1)
            = Event.emit st.out_frames st.frame_prev
              :: dupEmits (st.out_frames + 1) st.frame_prev (min (slack - (st.skip + 1)) rest.length) from rfl]
        simp
      · rw [ih6, List.length_cons, hm]
        rw [show idxList st.frames (min (slack - (st.skip + 1)) rest.length + 1)
            = st.frames :: idxList (st.frames + 1) (min (slack - (st.skip + 1)) rest.length) from rfl]
        simp
      · rw [ih7, List.length_cons]
        have hlen : rest.length - (slack - (st.skip + 1))
            = rest.length + 1 - (slack - st.skip) := by omega
        have hst : st.frames + 1 + (slack - (st.skip + 1))
            = st.frames + (slack - st.skip) := by omega
        rw [hlen, hst]

/-- Processing a frame that is classified different (or is the very first
frame): the skip range is logged when the prior counter exceeded slack, the
buffers are swapped, the counter resets and the new frame is emitted. -/
theorem ebb_step_different (w h border : Int) (slack : Nat) (st : EbbState) (g : Frame)
    (hdiff : st.frames = 0 ∨ frames_differ st.frame_prev g w h border = true) :
    ebb_step w h border slack st g =
      { frame_prev := g
        frames := st.frames + 1
        out_frames := st.out_frames + 1
        skip := 0
        events := (if st.skip > slack then
            st.events ++ [Event.skipReport (st.frames - (st.skip - slack)) st.frames]
          else st.events) ++ [Event.emit st.out_frames g]
        keptIdx := st.keptIdx ++ [st.frames]
        droppedIdx := st.droppedIdx } := by
  rcases hdiff with h0 | hd
  · simp [ebb_step, h0]
  · simp [ebb_step, hd]

/-- C1: a run of K consecutive frames classified unchanged (K > S) after a
frame classified different yields exactly S + 1 emissions for the run (the
differing frame at the current output index followed by S duplicate
emissions of the retained frame) and exactly K - S dropped source frames,
the retained slot holding the differing frame g unchanged throughout. -/
theorem slack_run_emissions (w h border : Int) (S K : Nat) (st0 : EbbState)
    (g : Frame) (fs : List Frame)
    (hK : S < K) (hlen : fs.length = K)
    (hdiff : st0.frames = 0 ∨ frames_differ st0.frame_prev g w h border = true)
    (hsame : ∀ f ∈ fs, frames_differ g f w h border = false) :
    (fs.foldl (ebb_step w h border S) (ebb_step w h border S st0 g)).out_frames
        = st0.out_frames + (S + 1) ∧
    (fs.foldl (ebb_step w h border S) (ebb_step w h border S st0 g)).frames
        = st0.frames + (K + 1) ∧
    (fs.foldl (ebb_step w h border S) (ebb_step w h border S st0 g)).frame_prev = g ∧
    (ebb_step w h border S st0 g).events
        = (if st0.skip > S then
            st0.events ++ [Event.skipReport (st0.frames - (st0.skip - S)) st0.frames]
          else st0.events) ++ [Event.emit st0.out_frames g] ∧
    (fs.foldl (ebb_step w h border S) (ebb_step w h border S st0 g)).events
        = (ebb_step w h border S st0 g).events ++ dupEmits (st0.out_frames + 1) g S ∧
    (fs.foldl (ebb_step w h border S) (ebb_step w h border S st0 g)).keptIdx
        = st0.keptIdx ++ st0.frames :: idxList (st0.frames + 1) S ∧
    (fs.foldl (ebb_step w h border S) (ebb_step w h border S st0 g)).droppedIdx
        = st0.droppedIdx ++ idxList (st0.frames + 1 + S) (K - S) := by
  have hstep := ebb_step_different w h border S st0 g hdiff
  rw [hstep]
  obtain ⟨e1, e2, e3, e4, e5, e6, e7⟩ :=
    ebb_run_same_block w h border S fs
      { frame_prev := g
        frames := st0.frames + 1
        out_frames := st0.out_frames + 1
        skip := 0
        events := (if st0.skip > S then
            st0.events ++ [Event.skipReport (st0.frames - (st0.skip - S)) st0.frames]
          else st0.events) ++ [Event.emit st0.out_frames g]
        keptIdx := st0.keptIdx ++ [st0.frames]
        droppedIdx := st0.droppedIdx }
      hsame (by simp)
  simp only at e1 e2 e3 e4 e5 e6 e7
  have hmin : min (S - 0) fs.length = S := by omega
  rw [hmin] at e4 e5 e6
  have hn : fs.length - (S - 0) = K - S := by omega
  have hs : st0.frames + 1 + (S - 0) = st0.frames + 1 + S := by omega
  rw [hn, hs] at e7
  refine ⟨by rw [e4]; omega, by rw [e2]; omega, e1, rfl, ?_, ?_, e7⟩
  · rw [e5]
  · rw [e6]
    simp

/-- Witness for C1: slack 1, a run of 2 unchanged frames after the first
frame; 2 = S + 1 emissions and 1 = K - S drop. -/
theorem slack_run_emissions_witness :
    1 < 2 ∧
    (([whiteFrame, whiteFrame].foldl (ebb_step 5 5 1 1)
        (ebb_step 5 5 1 1 (ebb_init zeroFrame 0) whiteFrame)).out_frames
        = (ebb_init zeroFrame 0).out_frames + (1 + 1) ∧
     ([whiteFrame, whiteFrame].foldl (ebb_step 5 5 1 1)
        (ebb_step 5 5 1 1 (ebb_init zeroFrame 0) whiteFrame)).frames
        = (ebb_init zeroFrame 0).frames + (2 + 1) ∧
     ([whiteFrame, whiteFrame].foldl (ebb_step 5 5 1 1)
        (ebb_step 5 5 1 1 (ebb_init zeroFrame 0) whiteFrame)).frame_prev = whiteFrame ∧
     (ebb_step 5 5 1 1 (ebb_init zeroFrame 0) whiteFrame).events
        = (if (ebb_init zeroFrame 0).skip > 1 then
            (ebb_init zeroFrame 0).events
              ++ [Event.skipReport
                    ((ebb_init zeroFrame 0).frames - ((ebb_init zeroFrame 0).skip - 1))
                    (ebb_init zeroFrame 0).frames]
          else (ebb_init zeroFrame 0).events)
          ++ [Event.emit (ebb_init zeroFrame 0).out_frames whiteFrame] ∧
     ([whiteFrame, whiteFrame].foldl (ebb_step 5 5 1 1)
        (ebb_step 5 5 1 1 (ebb_init zeroFrame 0) whiteFrame)).events
        = (ebb_step 5 5 1 1 (ebb_init zeroFrame 0) whiteFrame).events
          ++ dupEmits ((ebb_init zeroFrame 0).out_frames + 1) whiteFrame 1 ∧
     ([whiteFrame, whiteFrame].foldl (ebb_step 5 5 1 1)
        (ebb_step 5 5 1 1 (ebb_init zeroFrame 0) whiteFrame)).keptIdx
        = (ebb_init zeroFrame 0).keptIdx
          ++ (ebb_init zeroFrame 0).frames :: idxList ((ebb_init zeroFrame 0).frames + 1) 1 ∧
     ([whiteFrame, whiteFrame].foldl (ebb_step 5 5 1 1)
        (ebb_step 5 5 1 1 (ebb_init zeroFrame 0) whiteFrame)).droppedIdx
        = (ebb_init zeroFrame 0).droppedIdx
          ++ idxList ((ebb_init zeroFrame 0).frames + 1 + 1) (2 - 1)) :=
  ⟨by decide,
   slack_run_emissions 5 5 1 1 2 (ebb_init zeroFrame 0) whiteFrame
     [whiteFrame, whiteFrame] (by decide) rfl (Or.inl rfl)
     (by
       intro f hf
       simp only [List.mem_cons, List.not_mem_nil, or_false] at hf
       rcases hf with rfl | rfl <;> decide)⟩

/-- Head of a non-empty index interval. -/
theorem idxList_head (s n : Nat) (hn : 0 < n) : (idxList s n).head? = some s := by
  cases n with
  | zero => omega
  | succ m => rfl

/-- Last element of a non-empty index interval. -/
theorem idxList_last : ∀ (n s : Nat), 0 < n → (idxList s n).getLast? = some (s + n - 1) := by
  intro n
  induction n with
  | zero => intro s h; omega
  | succ m ih =>
    intro s _
    cases m with
    | zero => rfl
    | succ k =>
      rw [show idxList s (k + 1 + 1) = s :: idxList (s + 1) (k + 1) from rfl]
      rw [show idxList (s + 1) (k + 1) = (s + 1) :: idxList (s + 2) k from rfl]
      rw [List.getLast?_cons_cons]
      rw [show (s + 1) :: idxList (s + 2) k = idxList (s + 1) (k + 1) from rfl]
      rw [ih (s + 1) (by omega)]
      congr 1
      omega

/-- C5 counterexample: slack 0, stream of three frames where frame 0 is new,
frame 1 is unchanged (dropped) and frame 2 is new again.  The logged range
is [1, 2], but the only dropped frame is 1: the upper bound 2 is the source
index of the emitted different frame, not of the last dropped frame, and
that emitted index 2 lies inside the closed reported range [1, 2]. -/
theorem skip_report_range_cx :
    (ebb_run 5 5 1 0 zeroFrame 0 [whiteFrame, whiteFrame, zeroFrame]).events
      = [Event.emit 0 whiteFrame, Event.skipReport 1 2, Event.emit 1 zeroFrame] ∧
    (ebb_run 5 5 1 0 zeroFrame 0 [whiteFrame, whiteFrame, zeroFrame]).droppedIdx = [1] ∧
    (ebb_run 5 5 1 0 zeroFrame 0 [whiteFrame, whiteFrame, zeroFrame]).keptIdx = [0, 2] ∧
    (1 : Nat) ≠ 2 ∧ (1 : Nat) ≤ 2 ∧ (2 : Nat) ≤ 2 :=
  ⟨rfl, rfl, rfl, by decide, by decide, by decide⟩

/-- C5 (amended): when a frame classified different arrives after a run of K
unchanged frames with prior counter K > S, the logged range [f1, f2] has
f1 = the source index of the first dropped frame and f2 = the source index
of the arriving (emitted) different frame, one past the last dropped frame;
the dropped span is exactly [f1, f2 - 1] and no emitted source index lies
in [f1, f2 - 1]. -/
theorem skip_report_range (w h border : Int) (S K : Nat) (st0 : EbbState)
    (g gq : Frame) (fs : List Frame)
    (hK : S < K) (hlen : fs.length = K)
    (hdiff : st0.frames = 0 ∨ frames_differ st0.frame_prev g w h border = true)
    (hsame : ∀ f ∈ fs, frames_differ g f w h border = false)
    (hdiff2 : frames_differ g gq w h border = true) :
    (ebb_step w h border S
        (fs.foldl (ebb_step w h border S) (ebb_step w h border S st0 g)) gq).events
      = (fs.foldl (ebb_step w h border S) (ebb_step w h border S st0 g)).events
        ++ [Event.skipReport (st0.frames + 1 + S) (st0.frames + 1 + K),
            Event.emit
              (fs.foldl (ebb_step w h border S) (ebb_step w h border S st0 g)).out_frames
              gq] ∧
    (fs.foldl (ebb_step w h border S) (ebb_step w h border S st0 g)).droppedIdx
      = st0.droppedIdx ++ idxList (st0.frames + 1 + S) (K - S) ∧
    (ebb_step w h border S
        (fs.foldl (ebb_step w h border S) (ebb_step w h border S st0 g)) gq).droppedIdx
      = (fs.foldl (ebb_step w h border S) (ebb_step w h border S st0 g)).droppedIdx ∧
    (ebb_step w h border S
        (fs.foldl (ebb_step w h border S) (ebb_step w h border S st0 g)) gq).keptIdx
      = (fs.foldl (ebb_step w h border S) (ebb_step w h border S st0 g)).keptIdx
        ++ [st0.frames + 1 + K] ∧
    (fs.foldl (ebb_step w h border S) (ebb_step w h border S st0 g)).keptIdx
      = st0.keptIdx ++ st0.frames :: idxList (st0.frames + 1) S ∧
    (idxList (st0.frames + 1 + S) (K - S)).head? = some (st0.frames + 1 + S) ∧
    (idxList (st0.frames + 1 + S) (K - S)).getLast? = some (st0.frames + K) ∧
    (∀ i ∈ st0.frames :: idxList (st0.frames + 1) S ++ [st0.frames + 1 + K],
      i < st0.frames + 1 + S ∨ st0.frames + K < i) := by
  have hstep := ebb_step_different w h border S st0 g hdiff
  rw [hstep]
  obtain ⟨e1, e2, e3, e4, e5, e6, e7⟩ :=
    ebb_run_same_block w h border S fs
      { frame_prev := g
        frames := st0.frames + 1
        out_frames := st0.out_frames + 1
        skip := 0
        events := (if st0.skip > S then
            st0.events ++ [Event.skipReport (st0.frames - (st0.skip - S)) st0.frames]
          else st0.events) ++ [Event.emit st0.out_frames g]
        keptIdx := st0.keptIdx ++ [st0.frames]
        droppedIdx := st0.droppedIdx }
      hsame (by simp)
  simp only at e1 e2 e3 e4 e5 e6 e7
  have hmin : min (S - 0) fs.length = S := by omega
  rw [hmin] at e4 e5 e6
  have hn : fs.length - (S - 0) = K - S := by omega
  have hs : st0.frames + 1 + (S - 0) = st0.frames + 1 + S := by omega
  rw [hn, hs] at e7
  have hdiff3 :
      (fs.foldl (ebb_step w h border S)
        { frame_prev := g
          frames := st0.frames + 1
          out_frames := st0.out_frames + 1
          skip := 0
          events := (if st0.skip > S then
              st0.events ++ [Event.skipReport (st0.frames - (st0.skip - S)) st0.frames]
            else st0.events) ++ [Event.emit st0.out_frames g]
          keptIdx := st0.keptIdx ++ [st0.frames]
          droppedIdx := st0.droppedIdx }).frames = 0 ∨
      frames_differ
        (fs.foldl (ebb_step w h border S)
          { frame_prev := g
            frames := st0.frames + 1
            out_frames := st0.out_frames + 1
            skip := 0
            events := (if st0.skip > S then
                st0.events ++ [Event.skipReport (st0.frames - (st0.skip - S)) st0.frames]
              else st0.events) ++ [Event.emit st0.out_frames g]
            keptIdx := st0.keptIdx ++ [st0.frames]
            droppedIdx := st0.droppedIdx }).frame_prev gq w h border = true := by
    rw [e1]; exact Or.inr hdiff2
  have hstep2 := ebb_step_different w h border S _ gq hdiff3
  rw [hstep2]
  dsimp only
  have hrep : (fs.foldl (ebb_step w h border S)
      { frame_prev := g
        frames := st0.frames + 1
        out_frames := st0.out_frames + 1
        skip := 0
        events := (if st0.skip > S then
            st0.events ++ [Event.skipReport (st0.frames - (st0.skip - S)) st0.frames]
          else st0.events) ++ [Event.emit st0.out_frames g]
        keptIdx := st0.keptIdx ++ [st0.frames]
        droppedIdx := st0.droppedIdx }).skip > S := by
    rw [e3]; omega
  rw [if_pos hrep, e3, e2]
  have hf1 : st0.frames + 1 + fs.length - (0 + fs.length - S) = st0.frames + 1 + S := by
    omega
  have hf2 : st0.frames + 1 + fs.length = st0.frames + 1 + K := by omega
  rw [hf1, hf2]
  refine ⟨by simp, e7, rfl, rfl, ?_, idxList_head _ _ (by omega), ?_, ?_⟩
  · rw [e6]; simp
  · rw [idxList_last (K - S) (st0.frames + 1 + S) (by omega)]
    congr 1
    omega
  · intro i hi
    simp only [List.mem_cons, List.mem_append, List.mem_singleton, List.not_mem_nil,
      or_false, idxList_mem] at hi
    rcases hi with (rfl | ⟨hlo, hhi⟩) | rfl <;> omega

/-- Witness for C5: slack 0, one dropped frame (index 1), closing different
frame at index 2; logged range [1, 2]. -/
theorem skip_report_range_witness :
    0 < 1 ∧
    (ebb_step 5 5 1 0
        ([whiteFrame].foldl (ebb_step 5 5 1 0)
          (ebb_step 5 5 1 0 (ebb_init zeroFrame 0) whiteFrame)) zeroFrame).events
      = ([whiteFrame].foldl (ebb_step 5 5 1 0)
          (ebb_step 5 5 1 0 (ebb_init zeroFrame 0) whiteFrame)).events
        ++ [Event.skipReport ((ebb_init zeroFrame 0).frames + 1 + 0)
              ((ebb_init zeroFrame 0).frames + 1 + 1),
            Event.emit
              ([whiteFrame].foldl (ebb_step 5 5 1 0)
                (ebb_step 5 5 1 0 (ebb_init zeroFrame 0) whiteFrame)).out_frames
              zeroFrame] ∧
    ([whiteFrame].foldl (ebb_step 5 5 1 0)
        (ebb_step 5 5 1 0 (ebb_init zeroFrame 0) whiteFrame)).droppedIdx
      = (ebb_init zeroFrame 0).droppedIdx
        ++ idxList ((ebb_init zeroFrame 0).frames + 1 + 0) (1 - 0) ∧
    (ebb_step 5 5 1 0
        ([whiteFrame].foldl (ebb_step 5 5 1 0)
          (ebb_step 5 5 1 0 (ebb_init zeroFrame 0) whiteFrame)) zeroFrame).droppedIdx
      = ([whiteFrame].foldl (ebb_step 5 5 1 0)
          (ebb_step 5 5 1 0 (ebb_init zeroFrame 0) whiteFrame)).droppedIdx ∧
    (ebb_step 5 5 1 0
        ([whiteFrame].foldl (ebb_step 5 5 1 0)
          (ebb_step 5 5 1 0 (ebb_init zeroFrame 0) whiteFrame)) zeroFrame).keptIdx
      = ([whiteFrame].foldl (ebb_step 5 5 1 0)
          (ebb_step 5 5 1 0 (ebb_init zeroFrame 0) whiteFrame)).keptIdx
        ++ [(ebb_init zeroFrame 0).frames + 1 + 1] := by
  have h := skip_report_range 5 5 1 0 1 (ebb_init zeroFrame 0) whiteFrame zeroFrame
    [whiteFrame] (by decide) rfl (Or.inl rfl)
    (by
      intro f hf
      simp only [List.mem_cons, List.not_mem_nil, or_false] at hf
      subst hf
      decide)
    (by decide)
  exact ⟨by decide, h.1, h.2.1, h.2.2.1, h.2.2.2.1⟩

/-- C4 counterexample: slack 0, two splash slots already emitted, then a
three-frame stream whose last two frames are unchanged, so a skip run
(frames 1-2) is still open at end of stream.  The totals call passes its
assertion (3 read, 3 emitted counting the splash slots) and the complete
output holds no skip-range report at all: only the emission of frame 0 and
the totals summary.  (Without the splash slots the run would not even reach
the summary: the final get_times call aborts, as the C10 theorem shows.) -/
theorem end_of_stream_cx :
    (ebb_run 5 5 1 0 zeroFrame 2 [whiteFrame, whiteFrame, whiteFrame]).skip = 2 ∧
    0 < (ebb_run 5 5 1 0 zeroFrame 2 [whiteFrame, whiteFrame, whiteFrame]).skip ∧
    ebb_finish 25 1 (ebb_run 5 5 1 0 zeroFrame 2 [whiteFrame, whiteFrame, whiteFrame])
      = some [Event.emit 2 whiteFrame, Event.summary 3 3] ∧
    ((ebb_run 5 5 1 0 zeroFrame 2 [whiteFrame, whiteFrame, whiteFrame]).events).filter
        Event.isReport = [] :=
  ⟨rfl, by decide, rfl, rfl⟩

/-- One step preserves the bound that every logged skip range ends strictly
before the start of the currently open run of unchanged frames. -/
theorem ebb_step_report_bound (w h border : Int) (S : Nat) (st : EbbState) (f : Frame)
    (hinv : ∀ a b, Event.skipReport a b ∈ st.events → b + st.skip < st.frames) :
    ∀ a b, Event.skipReport a b ∈ (ebb_step w h border S st f).events →
      b + (ebb_step w h border S st f).skip < (ebb_step w h border S st f).frames := by
  intro a b hmem
  unfold ebb_step at hmem ⊢
  by_cases hc : (st.frames == 0 || frames_differ st.frame_prev f w h border) = true
  · rw [if_pos hc] at hmem ⊢
    dsimp only at hmem ⊢
    by_cases hr : st.skip > S
    · rw [if_pos hr] at hmem
      simp only [List.append_assoc, List.mem_append, List.mem_singleton,
        List.mem_cons, List.not_mem_nil, or_false] at hmem
      rcases hmem with h | h | h
      · have := hinv a b h; omega
      · cases h; omega
      · cases h
    · rw [if_neg hr] at hmem
      simp only [List.mem_append, List.mem_singleton, List.mem_cons,
        List.not_mem_nil, or_false] at hmem
      rcases hmem with h | h
      · have := hinv a b h; omega
      · cases h
  · rw [if_neg hc] at hmem ⊢
    dsimp only at hmem ⊢
    by_cases hs : st.skip + 1 > S
    · rw [if_pos hs] at hmem ⊢
      dsimp only at hmem ⊢
      have := hinv a b hmem
      omega
    · rw [if_neg hs] at hmem ⊢
      dsimp only at hmem ⊢
      simp only [List.mem_append, List.mem_singleton, List.mem_cons,
        List.not_mem_nil, or_false] at hmem
      rcases hmem with h | h
      · have := hinv a b h; omega
      · cases h

/-- The report bound holds at the end of any run started in a state that
satisfies it. -/
theorem ebb_run_report_bound (w h border : Int) (S : Nat) :
    ∀ (stream : List Frame) (st : EbbState),
      (∀ a b, Event.skipReport a b ∈ st.events → b + st.skip < st.frames) →
      ∀ a b, Event.skipReport a b ∈ (stream.foldl (ebb_step w h border S) st).events →
        b + (stream.foldl (ebb_step w h border S) st).skip
          < (stream.foldl (ebb_step w h border S) st).frames := by
  intro stream
  induction stream with
  | nil => intro st hinv; exact hinv
  | cons f rest ih =>
    intro st hinv
    exact ih _ (ebb_step_report_bound w h border S st f hinv)

/-- C4 (amended): at end of stream nothing but the totals summary is
logged.  When the final get_times call passes its assertion the output
ends with the frames-read/frames-emitted summary (when it fails, the
program aborts and not even the summary appears), and every skip range in
the output ends strictly before the start of the still-open run of
unchanged frames, so an open run at end of stream is never reported. -/
theorem end_of_stream_no_open_report (w h border : Int) (S : Nat) (fp0 : Frame)
    (out0 : Nat) (stream : List Frame) (num den : Nat) (evs : List Event) (a b : Nat)
    (hfin : ebb_finish num den (ebb_run w h border S fp0 out0 stream) = some evs)
    (hmem : Event.skipReport a b ∈ evs) :
    b + (ebb_run w h border S fp0 out0 stream).skip
      < (ebb_run w h border S fp0 out0 stream).frames ∧
    evs.getLast?
      = some (Event.summary (ebb_run w h border S fp0 out0 stream).frames
          (ebb_run w h border S fp0 out0 stream).out_frames) := by
  have hevs : evs = (ebb_run w h border S fp0 out0 stream).events
      ++ [Event.summary (ebb_run w h border S fp0 out0 stream).frames
            (ebb_run w h border S fp0 out0 stream).out_frames] := by
    unfold ebb_finish at hfin
    cases hget : get_times (ebb_run w h border S fp0 out0 stream).frames
        (ebb_run w h border S fp0 out0 stream).out_frames num den with
    | none =>
      rw [hget] at hfin
      cases hfin
    | some t =>
      rw [hget] at hfin
      exact (Option.some_inj.mp hfin).symm
  subst hevs
  constructor
  · have hm2 : Event.skipReport a b ∈ (ebb_run w h border S fp0 out0 stream).events := by
      simp only [List.mem_append, List.mem_singleton,
        List.mem_cons, List.not_mem_nil, or_false] at hmem
      rcases hmem with hh | hh
      · exact hh
      · cases hh
    exact ebb_run_report_bound w h border S stream (ebb_init fp0 out0)
      (by intro a2 b2 hab; simp [ebb_init] at hab) a b hm2
  · exact List.getLast?_concat _

/-- Witness for C4 (amended): one splash slot, a stream with one closed
skip run and a final different frame; the totals assertion passes (3 read,
3 emitted), the logged range [1, 2] ends before the (empty) open run, and
the output ends with the summary. -/
theorem end_of_stream_no_open_report_witness :
    ebb_finish 25 1 (ebb_run 5 5 1 0 zeroFrame 1 [whiteFrame, whiteFrame, zeroFrame])
      = some [Event.emit 1 whiteFrame, Event.skipReport 1 2, Event.emit 2 zeroFrame,
          Event.summary 3 3] ∧
    Event.skipReport 1 2 ∈ [Event.emit 1 whiteFrame, Event.skipReport 1 2,
        Event.emit 2 zeroFrame, Event.summary 3 3] ∧
    (2 + (ebb_run 5 5 1 0 zeroFrame 1 [whiteFrame, whiteFrame, zeroFrame]).skip
        < (ebb_run 5 5 1 0 zeroFrame 1 [whiteFrame, whiteFrame, zeroFrame]).frames ∧
     ([Event.emit 1 whiteFrame, Event.skipReport 1 2, Event.emit 2 zeroFrame,
         Event.summary 3 3] : List Event).getLast?
        = some (Event.summary
            (ebb_run 5 5 1 0 zeroFrame 1 [whiteFrame, whiteFrame, zeroFrame]).frames
            (ebb_run 5 5 1 0 zeroFrame 1 [whiteFrame, whiteFrame, zeroFrame]).out_frames)) := by
  have hfin : ebb_finish 25 1 (ebb_run 5 5 1 0 zeroFrame 1 [whiteFrame, whiteFrame, zeroFrame])
      = some [Event.emit 1 whiteFrame, Event.skipReport 1 2, Event.emit 2 zeroFrame,
          Event.summary 3 3] := rfl
  have hmem : Event.skipReport 1 2 ∈ [Event.emit 1 whiteFrame, Event.skipReport 1 2,
      Event.emit 2 zeroFrame, Event.summary 3 3] :=
    List.mem_cons_of_mem _ (List.mem_cons_self _ _)
  exact ⟨hfin, hmem, end_of_stream_no_open_report 5 5 1 0 zeroFrame 1
    [whiteFrame, whiteFrame, zeroFrame] 25 1 _ 1 2 hfin hmem⟩

/-- C8 counterexample: f1 = 3600, f2 = 3700 at 1 frame per second.  The
second time should decompose as 01:01:40, but because minute extraction is
gated on the FIRST time (whose remainder after the hour is 0), the code
returns 01:00:100 — a remainder-seconds component of 100, not below 60 and
not equal to (s2 mod 3600) / 60 = 1 minutes. -/
theorem get_times_gating_cx :
    get_times 3600 3700 1 1 = some ((1, 0, 0), (1, 0, 100)) ∧
    3700 % 3600 / 60 = 1 ∧ 3700 % 60 = 40 ∧ ¬ (100 : Nat) < 60 := by
  refine ⟨by decide, by decide, by decide, by decide⟩

/-- C8 (amended): get_times computes s = index * den / num by integer
division for both indices; the first triple is always the canonical
decomposition (hours s1 / 3600, minutes (s1 mod 3600) / 60, remainder
s1 mod 60 < 60).  The second triple is extracted under the first index's
gates, so it is canonical (with remainder below 60) exactly when the two
indices agree on having a nonzero hour part and on having at least a full
minute left after the hour part; otherwise its remainder may reach 60 or
more. -/
theorem get_times_decomposition (f1 f2 num den : Nat) (hnum : 0 < num) (hle : f1 ≤ f2) :
    (get_times f1 f2 num den).map Prod.fst
      = some (f1 * den / num / 3600, f1 * den / num % 3600 / 60, f1 * den / num % 60) ∧
    f1 * den / num % 60 < 60 ∧ f2 * den / num % 60 < 60 ∧
    (((3600 ≤ f1 * den / num ↔ 3600 ≤ f2 * den / num) ∧
      (60 ≤ f1 * den / num % 3600 ↔ 60 ≤ f2 * den / num % 3600)) →
      (get_times f1 f2 num den).map Prod.snd
        = some (f2 * den / num / 3600, f2 * den / num % 3600 / 60, f2 * den / num % 60)) := by
  have h3600 : (60 : Nat) * 60 = 3600 := rfl
  simp only [get_times, if_pos hle, h3600]
  generalize f1 * den / num = s1
  generalize f2 * den / num = s2
  split_ifs with hg1 hg2 hg2 <;>
    (try simp only [show s1 - s1 / 3600 * 3600 = s1 % 3600 from by omega,
      show s2 - s2 / 3600 * 3600 = s2 % 3600 from by omega] at hg2 ⊢) <;>
    (try simp only [show s1 - 0 * 3600 = s1 from by omega,
      show s2 - 0 * 3600 = s2 from by omega] at hg2 ⊢) <;>
    refine ⟨?_, by omega, by omega, fun hg => ?_⟩ <;>
    (try obtain ⟨hga, hgb⟩ := hg) <;>
    simp only [Option.map_some', Option.some.injEq, Prod.mk.injEq] <;>
    refine ⟨?_, ?_, ?_⟩ <;>
    first
    | trivial
    | omega

/-- Witness for C8: f1 = 3661 (01:01:01) and f2 = 7322 (02:02:02) at 1 fps
agree on both gates, so both triples are canonical. -/
theorem get_times_decomposition_witness :
    0 < 1 ∧ 3661 ≤ 7322 ∧
    ((get_times 3661 7322 1 1).map Prod.fst
        = some (3661 * 1 / 1 / 3600, 3661 * 1 / 1 % 3600 / 60, 3661 * 1 / 1 % 60) ∧
     3661 * 1 / 1 % 60 < 60 ∧ 7322 * 1 / 1 % 60 < 60 ∧
     (((3600 ≤ 3661 * 1 / 1 ↔ 3600 ≤ 7322 * 1 / 1) ∧
       (60 ≤ 3661 * 1 / 1 % 3600 ↔ 60 ≤ 7322 * 1 / 1 % 3600)) →
       (get_times 3661 7322 1 1).map Prod.snd
         = some (7322 * 1 / 1 / 3600, 7322 * 1 / 1 % 3600 / 60, 7322 * 1 / 1 % 60))) :=
  ⟨by decide, by decide, get_times_decomposition 3661 7322 1 1 (by decide) (by decide)⟩

/-- takeWhile keeps everything when the predicate holds throughout. -/
theorem takeWhile_all {α : Type} (p : α → Bool) :
    ∀ l : List α, (∀ x ∈ l, p x = true) → l.takeWhile p = l := by
  intro l
  induction l with
  | nil => intro; rfl
  | cons a t ih =>
    intro hall
    rw [List.takeWhile_cons, if_pos (hall a (List.mem_cons_self a t))]
    rw [ih (fun x hx => hall x (List.mem_cons_of_mem a hx))]

/-- One loop step keeps the head of the event list. -/
theorem ebb_step_events_head (w h border : Int) (S : Nat) (st : EbbState) (f : Frame)
    (e : Event) (hhead : st.events.head? = some e) :
    (ebb_step w h border S st f).events.head? = some e := by
  rcases hev : st.events with _ | ⟨e0, es⟩
  · rw [hev] at hhead; cases hhead
  · unfold ebb_step
    by_cases hc : (st.frames == 0 || frames_differ st.frame_prev f w h border) = true
    · rw [if_pos hc]
      dsimp only
      by_cases hr : st.skip > S
      · rw [if_pos hr, hev]
        rw [hev] at hhead
        simpa using hhead
      · rw [if_neg hr, hev]
        rw [hev] at hhead
        simpa using hhead
    · rw [if_neg hc]
      dsimp only
      by_cases hs : st.skip + 1 > S
      · rw [if_pos hs]
        dsimp only
        exact hhead
      · rw [if_neg hs]
        dsimp only
        rw [hev]
        rw [hev] at hhead
        simpa using hhead

/-- The first event of a run never changes once produced. -/
theorem ebb_run_events_head (w h border : Int) (S : Nat) :
    ∀ (stream : List Frame) (st : EbbState) (e : Event),
      st.events.head? = some e →
      ((stream.foldl (ebb_step w h border S) st).events).head? = some e := by
  intro stream
  induction stream with
  | nil => intro st e hh; exact hh
  | cons f rest ih =>
    intro st e hh
    exact ih _ e (ebb_step_events_head w h border S st f e hh)

/-- C7: when every splash link attempt succeeds, dump_splash emits exactly
floor(splash duration * fps num / (100 * fps den)) slots, and the first
emission of the main loop (the first frame is always written) carries
exactly that output index. -/
theorem splash_count_and_first_index (linkOK : Nat → Bool) (D num den : Nat)
    (w h border : Int) (S : Nat) (fp0 f0 : Frame) (rest : List Frame)
    (hok : ∀ i, linkOK i = true) :
    dump_splash linkOK D num den = D * num / (100 * den) ∧
    ((ebb_run w h border S fp0 (dump_splash linkOK D num den) (f0 :: rest)).events).head?
      = some (Event.emit (D * num / (100 * den)) f0) := by
  have hcount : dump_splash linkOK D num den = D * num / (100 * den) := by
    unfold dump_splash SECOND_IN_CS
    rw [takeWhile_all linkOK _ (fun x _ => hok x), List.length_range]
  refine ⟨hcount, ?_⟩
  unfold ebb_run
  rw [List.foldl_cons]
  apply ebb_run_events_head
  rw [ebb_step_different w h border S (ebb_init fp0 (dump_splash linkOK D num den)) f0
    (Or.inl rfl)]
  dsimp only [ebb_init]
  rw [if_neg (by omega)]
  rw [hcount]
  rfl

/-- Witness for C7: 300 cs of splash at 25/1 fps gives 75 slots and the
first main-loop emission has output index 75. -/
theorem splash_count_and_first_index_witness :
    dump_splash (fun _ => true) 300 25 1 = 300 * 25 / (100 * 1) ∧
    ((ebb_run 5 5 1 0 zeroFrame (dump_splash (fun _ => true) 300 25 1)
        [whiteFrame]).events).head?
      = some (Event.emit (300 * 25 / (100 * 1)) whiteFrame) :=
  splash_count_and_first_index (fun _ => true) 300 25 1 5 5 1 0 zeroFrame whiteFrame []
    (fun _ => rfl)

/-- One loop step writes exactly one PNG or drops exactly one frame. -/
theorem ebb_step_emit_count (w h border : Int) (S : Nat) (st : EbbState) (f : Frame) :
    (ebb_step w h border S st f).out_frames
        + (ebb_step w h border S st f).droppedIdx.length
      = st.out_frames + st.droppedIdx.length + 1 ∧
    (ebb_step w h border S st f).frames = st.frames + 1 := by
  unfold ebb_step
  by_cases hc : (st.frames == 0 || frames_differ st.frame_prev f w h border) = true
  · rw [if_pos hc]
    dsimp only
    exact ⟨by omega, rfl⟩
  · rw [if_neg hc]
    dsimp only
    by_cases hs : st.skip + 1 > S
    · rw [if_pos hs]
      dsimp only
      refine ⟨?_, rfl⟩
      rw [List.length_append]
      simp only [List.length_cons, List.length_nil]
      omega
    · rw [if_neg hs]
      dsimp only
      exact ⟨by omega, rfl⟩

/-- Across a whole run, emissions plus drops account exactly for the frames
read. -/
theorem ebb_run_emit_count (w h border : Int) (S : Nat) :
    ∀ (stream : List Frame) (st : EbbState),
      (stream.foldl (ebb_step w h border S) st).out_frames
          + (stream.foldl (ebb_step w h border S) st).droppedIdx.length
        = st.out_frames + st.droppedIdx.length + stream.length ∧
      (stream.foldl (ebb_step w h border S) st).frames = st.frames + stream.length := by
  intro stream
  induction stream with
  | nil => intro st; exact ⟨by simp, by simp⟩
  | cons f rest ih =>
    intro st
    obtain ⟨c1, c2⟩ := ebb_step_emit_count w h border S st f
    obtain ⟨d1, d2⟩ := ih (ebb_step w h border S st f)
    refine ⟨?_, ?_⟩
    · simp only [List.foldl_cons, List.length_cons]
      omega
    · simp only [List.foldl_cons, List.length_cons]
      omega

/-- C10: get_times asserts f1 <= f2 (modelled as its Option guard), but the
end-of-stream totals call passes (frames read, frames emitted); in every
run without splash slots in which at least one frame was dropped, frames
emitted < frames read, so that call violates the assertion (the guard
returns none). -/
theorem final_summary_assert_fails (w h border : Int) (S : Nat) (fp0 : Frame)
    (stream : List Frame) (num den : Nat)
    (hdrop : (ebb_run w h border S fp0 0 stream).droppedIdx ≠ []) :
    (ebb_run w h border S fp0 0 stream).out_frames
      < (ebb_run w h border S fp0 0 stream).frames ∧
    get_times (ebb_run w h border S fp0 0 stream).frames
      (ebb_run w h border S fp0 0 stream).out_frames num den = none := by
  obtain ⟨c1, c2⟩ := ebb_run_emit_count w h border S stream (ebb_init fp0 0)
  have hpos : 0 < (ebb_run w h border S fp0 0 stream).droppedIdx.length :=
    List.length_pos.mpr hdrop
  have hlt : (ebb_run w h border S fp0 0 stream).out_frames
      < (ebb_run w h border S fp0 0 stream).frames := by
    have c1' : (ebb_run w h border S fp0 0 stream).out_frames
        + (ebb_run w h border S fp0 0 stream).droppedIdx.length
        = 0 + 0 + stream.length := c1
    have c2' : (ebb_run w h border S fp0 0 stream).frames = 0 + stream.length := c2
    omega
  refine ⟨hlt, ?_⟩
  unfold get_times
  rw [if_neg (by omega)]

/-- Witness for C10: slack 0 with two unchanged frames dropped; frames read
= 3, emitted = 1, and the final get_times call fails its guard. -/
theorem final_summary_assert_fails_witness :
    (ebb_run 5 5 1 0 zeroFrame 0 [whiteFrame, whiteFrame, whiteFrame]).droppedIdx ≠ [] ∧
    ((ebb_run 5 5 1 0 zeroFrame 0 [whiteFrame, whiteFrame, whiteFrame]).out_frames
        < (ebb_run 5 5 1 0 zeroFrame 0 [whiteFrame, whiteFrame, whiteFrame]).frames ∧
     get_times (ebb_run 5 5 1 0 zeroFrame 0 [whiteFrame, whiteFrame, whiteFrame]).frames
       (ebb_run 5 5 1 0 zeroFrame 0 [whiteFrame, whiteFrame, whiteFrame]).out_frames
       1 1 = none) :=
  ⟨by decide,
   final_summary_assert_fails 5 5 1 0 zeroFrame [whiteFrame, whiteFrame, whiteFrame] 1 1
     (by decide)⟩
